import Mathlib

/-!
# Verification of the zomboid_saver backup-retention and metadata engine

Shallow embedding of `src/zomboid_saver/backend.py` and
`src/zomboid_saver/player_parser.py` (Python), together with theorems that
settle the specification claims about them.

Modelling conventions:
* Python machine-independent integers are `Int` (sizes, which are
  non-negative, are `Nat` where the source only ever produces them from
  file sizes); all arithmetic is exact, as in Python.
* Filesystem modification times (`st_mtime`) are modelled as `Int`; only
  their ordering is ever used by the source.
* Python's `sorted` is a stable sort; any two stable sorts agree
  extensionally, so it is embedded as `List.insertionSort` (stable).
* `bytes` buffers are `List Nat` (each element a byte value `< 256`;
  the reads only use the values, so the bound is not enforced by the type).
* IEEE-754 doubles produced by `struct.unpack(">d", ...)` are represented
  by their 64-bit big-endian bit pattern (a `Nat`); the pattern of `0.0`
  is `0`, so "returns `0.0`" corresponds to bit pattern `0`.
-/

namespace ZomboidSaver

open List

/-! ## Data model: catalog entries (backend.py)

A backup artifact as the retention code sees it: its path (used only as an
identifier for the returned victim lists), its `st_mtime`, and its size in
bytes (`_get_backup_size`: file size, or recursive sum for directories —
the retention code only consumes the resulting number). -/

structure Backup where
  path : String
  mtime : Int
  size : Nat
deriving DecidableEq, Repr

/-- Ordering used by `sorted(backups, key=lambda path: path.stat().st_mtime)`. -/
def mtimeLe (a b : Backup) : Prop := a.mtime ≤ b.mtime

instance : DecidableRel mtimeLe := fun a b => Int.decLe a.mtime b.mtime

instance : IsTotal Backup mtimeLe := ⟨fun a b => Int.le_total a.mtime b.mtime⟩

instance : IsTrans Backup mtimeLe := ⟨fun _ _ _ h h' => le_trans h h'⟩

/-- Strict mtime order (used to state "strictly older than"). -/
def mtimeLt (a b : Backup) : Prop := a.mtime < b.mtime

instance : DecidableRel mtimeLt := fun a b => Int.decLt a.mtime b.mtime

instance : IsAntisymm Backup mtimeLt :=
  ⟨fun _ _ h h' => absurd h' (not_lt.mpr (le_of_lt h))⟩

/-- `config.resolve_save_quota`: per-save override from `save_quotas_mb`
(modelled as an association list, as `dict.get` only performs key lookup),
else the process default. -/
def resolve_save_quota (quotas : List (String × Int)) (dflt : Int)
    (save_name : String) : Int :=
  ((quotas.lookup save_name).getD dflt)

/-- Total size in bytes: `sum(self._get_backup_size(item) for item in backups)`. -/
def totalSize (backups : List Backup) : Int :=
  backups.foldl (fun acc b => acc + (b.size : Int)) 0

/-- The eviction loop of `enforce_quota` (lines 182-189): walk the backups in
ascending mtime order, delete each, subtract its size, stop as soon as the
running total is within budget.  The loop is entered only when the total
exceeds the budget, so the first entry is always deleted. -/
def evictLoop : List Backup → Int → Int → List String
  | [], _, _ => []
  | b :: rest, total_bytes, quota_bytes =>
    b.path ::
      (if total_bytes - (b.size : Int) ≤ quota_bytes then []
       else evictLoop rest (total_bytes - (b.size : Int)) quota_bytes)

/-- `ZomboidSaverBackend.enforce_quota` (backend.py lines 167-191), with the
catalog listing for the save abstracted as the `backups` argument. -/
def enforce_quota (quotas : List (String × Int)) (dflt : Int)
    (save_name : String) (backups : List Backup) : List String :=
  let quota_mb := resolve_save_quota quotas dflt save_name
  if quota_mb ≤ 0 then []
  else if backups.isEmpty then []
  else
    let total_bytes := totalSize backups
    let quota_bytes := quota_mb * 1024 * 1024
    if total_bytes ≤ quota_bytes then []
    else evictLoop (backups.insertionSort mtimeLe) total_bytes quota_bytes

/-- `ZomboidSaverBackend.enforce_keep_last` (backend.py lines 193-210).
`ordered[:-retain]` (with `retain > 0`) is the prefix of length
`len(ordered) - retain`. -/
def enforce_keep_last (retain : Int) (backups : List Backup) : List String :=
  if retain ≤ 0 then []
  else if (backups.length : Int) ≤ retain then []
  else
    let ordered := backups.insertionSort mtimeLe
    let to_remove := ordered.take (ordered.length - retain.toNat)
    to_remove.map (·.path)

/-! ## Spec-side model of quota eviction (for claim C1)

The claim describes the eviction as "repeatedly select the entry with the
smallest `modifiedAt` among the remaining candidates".  `selectMin` extracts
the first entry of minimal mtime; `specEvictF` is that repeated selection
(fuel-indexed so that it is structurally recursive; `backups.length` fuel
always suffices because each round removes one candidate). -/

/-- Extract the (first) minimal-mtime element from `b :: l`, returning it
together with the remaining candidates in their original order. -/
def selectMin (b : Backup) : List Backup → Backup × List Backup
  | [] => (b, [])
  | c :: rest =>
    if c.mtime < b.mtime then
      ((selectMin c rest).1, b :: (selectMin c rest).2)
    else
      ((selectMin b rest).1, c :: (selectMin b rest).2)

/-- Repeated minimal-mtime eviction, as worded in the claim. -/
def specEvictF : Nat → List Backup → Int → Int → List String
  | _, [], _, _ => []
  | 0, _ :: _, _, _ => []
  | fuel + 1, b :: rest, total_bytes, quota_bytes =>
    (selectMin b rest).1.path ::
      (if total_bytes - ((selectMin b rest).1.size : Int) ≤ quota_bytes then []
       else specEvictF fuel (selectMin b rest).2
         (total_bytes - ((selectMin b rest).1.size : Int)) quota_bytes)

/-- Quota enforcement as the claim words it: same guards, but the eviction
repeatedly selects the oldest remaining candidate. -/
def enforce_quota_spec (quotas : List (String × Int)) (dflt : Int)
    (save_name : String) (backups : List Backup) : List String :=
  let quota_mb := resolve_save_quota quotas dflt save_name
  if quota_mb ≤ 0 then []
  else if backups.isEmpty then []
  else
    let total_bytes := totalSize backups
    let quota_bytes := quota_mb * 1024 * 1024
    if total_bytes ≤ quota_bytes then []
    else specEvictF backups.length backups total_bytes quota_bytes

/-- Full selection sort by mtime (fuel-indexed), the order in which
`specEvictF` visits candidates. -/
def ssortF : Nat → List Backup → List Backup
  | _, [] => []
  | 0, l => l
  | fuel + 1, b :: rest =>
    (selectMin b rest).1 :: ssortF fuel (selectMin b rest).2

/-! ### Lemmas: repeated minimum-selection agrees with a stable sort -/

theorem selectMin_length (b : Backup) (l : List Backup) :
    (selectMin b l).2.length = l.length := by
  induction l generalizing b with
  | nil => rfl
  | cons c rest ih =>
    simp only [selectMin]
    split <;> simp [ih]

theorem selectMin_perm (b : Backup) (l : List Backup) :
    (selectMin b l).1 :: (selectMin b l).2 ~ b :: l := by
  induction l generalizing b with
  | nil => rfl
  | cons c rest ih =>
    simp only [selectMin]
    split
    · exact (List.Perm.swap b (selectMin c rest).1 (selectMin c rest).2).trans
        ((ih c).cons b)
    · exact ((List.Perm.swap c (selectMin b rest).1 (selectMin b rest).2).trans
        ((ih b).cons c)).trans (List.Perm.swap b c rest)

theorem selectMin_le (b : Backup) (l : List Backup) :
    ∀ x ∈ b :: l, (selectMin b l).1.mtime ≤ x.mtime := by
  induction l generalizing b with
  | nil =>
    intro x hx
    rw [List.mem_singleton] at hx
    subst hx
    exact le_refl _
  | cons c rest ih =>
    intro x hx
    by_cases hlt : c.mtime < b.mtime
    · simp only [selectMin, if_pos hlt]
      rcases List.mem_cons.mp hx with heq | hx'
      · subst heq
        exact le_of_lt (lt_of_le_of_lt (ih c c (List.mem_cons_self c rest)) hlt)
      · exact ih c x hx'
    · simp only [selectMin, if_neg hlt]
      rcases List.mem_cons.mp hx with heq | hx'
      · subst heq
        exact ih x x (List.mem_cons_self x rest)
      · rcases List.mem_cons.mp hx' with heq | hx2
        · subst heq
          exact le_trans (ih b b (List.mem_cons_self b rest)) (not_lt.mp hlt)
        · exact ih b x (List.mem_cons.mpr (Or.inr hx2))

theorem ssortF_perm : ∀ (fuel : Nat) (l : List Backup), l.length ≤ fuel →
    ssortF fuel l ~ l := by
  intro fuel
  induction fuel with
  | zero =>
    intro l hl
    have hnil : l = [] := List.eq_nil_of_length_eq_zero (Nat.le_zero.mp hl)
    subst hnil
    rfl
  | succ fuel ih =>
    intro l hl
    match l with
    | [] => rfl
    | b :: rest =>
      simp only [ssortF]
      have hlen : (selectMin b rest).2.length ≤ fuel := by
        rw [selectMin_length]
        simpa using Nat.le_of_succ_le_succ hl
      exact ((ih _ hlen).cons _).trans (selectMin_perm b rest)

theorem ssortF_sorted : ∀ (fuel : Nat) (l : List Backup), l.length ≤ fuel →
    List.Sorted mtimeLe (ssortF fuel l) := by
  intro fuel
  induction fuel with
  | zero =>
    intro l hl
    have hnil : l = [] := List.eq_nil_of_length_eq_zero (Nat.le_zero.mp hl)
    subst hnil
    exact List.sorted_nil
  | succ fuel ih =>
    intro l hl
    match l with
    | [] => exact List.sorted_nil
    | b :: rest =>
      simp only [ssortF]
      have hlen : (selectMin b rest).2.length ≤ fuel := by
        rw [selectMin_length]
        simpa using Nat.le_of_succ_le_succ hl
      refine List.sorted_cons.mpr ⟨?_, ih _ hlen⟩
      intro x hx
      have hx2 : x ∈ (selectMin b rest).2 := ((ssortF_perm fuel _ hlen).mem_iff).mp hx
      have hx3 : x ∈ b :: rest :=
        (selectMin_perm b rest).mem_iff.mp (List.mem_cons.mpr (Or.inr hx2))
      exact selectMin_le b rest x hx3

theorem specEvictF_eq_evictLoop :
    ∀ (fuel : Nat) (l : List Backup) (t q : Int), l.length ≤ fuel →
      specEvictF fuel l t q = evictLoop (ssortF fuel l) t q := by
  intro fuel
  induction fuel with
  | zero =>
    intro l t q hl
    have hnil : l = [] := List.eq_nil_of_length_eq_zero (Nat.le_zero.mp hl)
    subst hnil
    rfl
  | succ fuel ih =>
    intro l t q hl
    match l with
    | [] => rfl
    | b :: rest =>
      have hlen : (selectMin b rest).2.length ≤ fuel := by
        rw [selectMin_length]
        simpa using Nat.le_of_succ_le_succ hl
      simp only [specEvictF, ssortF, evictLoop]
      rw [ih _ _ _ hlen]

/-- With pairwise-distinct mtimes, the sorted order (`Sorted mtimeLe`) is in
fact strictly sorted. -/
theorem sorted_lt_of_sorted_le_nodup (l : List Backup)
    (hs : List.Sorted mtimeLe l) (hnd : (l.map (·.mtime)).Nodup) :
    List.Sorted mtimeLt l := by
  have hne : l.Pairwise (fun a b => a.mtime ≠ b.mtime) := by
    simpa [List.Nodup, List.pairwise_map] using hnd
  exact (hs.and hne).imp (fun h => lt_of_le_of_ne h.1 h.2)

/-- With pairwise-distinct mtimes, the stable sort of the source and the
repeated minimum-selection of the spec produce the same order. -/
theorem insertionSort_eq_ssortF (l : List Backup)
    (hnd : (l.map (·.mtime)).Nodup) :
    l.insertionSort mtimeLe = ssortF l.length l := by
  have hperm : l.insertionSort mtimeLe ~ ssortF l.length l :=
    (List.perm_insertionSort mtimeLe l).trans (ssortF_perm l.length l le_rfl).symm
  have hnd1 : ((l.insertionSort mtimeLe).map (·.mtime)).Nodup :=
    (((List.perm_insertionSort mtimeLe l).map (·.mtime)).nodup_iff).mpr hnd
  have hnd2 : ((ssortF l.length l).map (·.mtime)).Nodup :=
    ((hperm.map (·.mtime)).nodup_iff).mp hnd1
  exact List.eq_of_perm_of_sorted (r := mtimeLt) hperm
    (sorted_lt_of_sorted_le_nodup _ (List.sorted_insertionSort mtimeLe l) hnd1)
    (sorted_lt_of_sorted_le_nodup _ (ssortF_sorted l.length l le_rfl) hnd2)

/-- Strict sortedness of the code's sort under pairwise-distinct mtimes. -/
theorem sorted_lt_insertionSort (backups : List Backup)
    (hnd : (backups.map (·.mtime)).Nodup) :
    List.Sorted mtimeLt (backups.insertionSort mtimeLe) :=
  sorted_lt_of_sorted_le_nodup _ (List.sorted_insertionSort mtimeLe backups)
    ((((List.perm_insertionSort mtimeLe backups).map (·.mtime))).nodup_iff.mpr hnd)

/-- C1: quota eviction deletes nothing when the resolved quota is ≤ 0 or the
total size is within budget, and otherwise performs exactly the repeated
oldest-first eviction described by the spec, returning victims oldest-first.
Modification times are assumed pairwise distinct (the spec declares
tie-breaking arbitrary). -/
theorem quota_eviction_correct (quotas : List (String × Int)) (dflt : Int)
    (save_name : String) (backups : List Backup)
    (hnd : (backups.map (·.mtime)).Nodup) :
    (resolve_save_quota quotas dflt save_name ≤ 0 →
      enforce_quota quotas dflt save_name backups = []) ∧
    (totalSize backups ≤ resolve_save_quota quotas dflt save_name * 1024 * 1024 →
      enforce_quota quotas dflt save_name backups = []) ∧
    enforce_quota quotas dflt save_name backups =
      enforce_quota_spec quotas dflt save_name backups := by
  refine ⟨?_, ?_, ?_⟩
  · intro h
    simp [enforce_quota, h]
  · intro h
    by_cases h1 : resolve_save_quota quotas dflt save_name ≤ 0
    · simp [enforce_quota, h1]
    · by_cases h2 : backups.isEmpty
      · simp [enforce_quota, h1, h2]
      · simp [enforce_quota, h1, h2, h]
  · by_cases h1 : resolve_save_quota quotas dflt save_name ≤ 0
    · simp [enforce_quota, enforce_quota_spec, h1]
    · by_cases h2 : backups.isEmpty
      · simp [enforce_quota, enforce_quota_spec, h1, h2]
      · by_cases h3 : totalSize backups ≤
            resolve_save_quota quotas dflt save_name * 1024 * 1024
        · simp [enforce_quota, enforce_quota_spec, h1, h2, h3]
        · simp only [enforce_quota, enforce_quota_spec, if_neg h1,
            if_neg h2, if_neg h3]
          rw [insertionSort_eq_ssortF backups hnd]
          exact (specEvictF_eq_evictLoop backups.length backups _ _ le_rfl).symm

/-- Three same-sized backups with distinct mtimes, listed out of order. -/
def demoBackups : List Backup :=
  [⟨"b3", 3, 700000⟩, ⟨"b1", 1, 700000⟩, ⟨"b2", 2, 700000⟩]

theorem quota_eviction_correct_witness :
    enforce_quota [("Alpha", 1)] 2048 "Alpha" demoBackups =
      enforce_quota_spec [("Alpha", 1)] 2048 "Alpha" demoBackups ∧
    enforce_quota [("Alpha", 1)] 2048 "Alpha" demoBackups = ["b1", "b2"] :=
  ⟨(quota_eviction_correct [("Alpha", 1)] 2048 "Alpha" demoBackups (by decide)).2.2,
   by decide⟩

/-- The `N-K` oldest entries (prefix of the mtime-sorted catalog). -/
def keepLastVictims (retain : Int) (backups : List Backup) : List Backup :=
  (backups.insertionSort mtimeLe).take (backups.length - retain.toNat)

/-- The `K` newest entries (suffix of the mtime-sorted catalog). -/
def keepLastSurvivors (retain : Int) (backups : List Backup) : List Backup :=
  (backups.insertionSort mtimeLe).drop (backups.length - retain.toNat)

/-- C2: keep-last trimming is a no-op when `K ≤ 0` or `N ≤ K`; otherwise it
deletes exactly the `N-K` oldest entries (every victim strictly older than
every survivor, under pairwise-distinct mtimes), the `K` newest survive, and
the victim list is ordered oldest-first. -/
theorem keep_last_correct (retain : Int) (backups : List Backup)
    (hnd : (backups.map (·.mtime)).Nodup) :
    (retain ≤ 0 → enforce_keep_last retain backups = []) ∧
    ((backups.length : Int) ≤ retain → enforce_keep_last retain backups = []) ∧
    (0 < retain → retain < (backups.length : Int) →
      enforce_keep_last retain backups =
        (keepLastVictims retain backups).map (·.path) ∧
      (keepLastVictims retain backups).length = backups.length - retain.toNat ∧
      (keepLastSurvivors retain backups).length = retain.toNat ∧
      keepLastVictims retain backups ++ keepLastSurvivors retain backups ~ backups ∧
      (∀ v ∈ keepLastVictims retain backups,
       ∀ s ∈ keepLastSurvivors retain backups, v.mtime < s.mtime) ∧
      List.Sorted mtimeLt (keepLastVictims retain backups)) := by
  refine ⟨?_, ?_, ?_⟩
  · intro h
    simp [enforce_keep_last, h]
  · intro h
    by_cases h1 : retain ≤ 0
    · simp [enforce_keep_last, h1]
    · simp [enforce_keep_last, h1, h]
  · intro h0 hN
    have h1 : ¬ retain ≤ 0 := not_le.mpr h0
    have h2 : ¬ ((backups.length : Int) ≤ retain) := not_le.mpr hN
    have hKN : retain.toNat < backups.length := by omega
    have hlen : (backups.insertionSort mtimeLe).length = backups.length :=
      (List.perm_insertionSort mtimeLe backups).length_eq
    have hsorted := sorted_lt_insertionSort backups hnd
    have hcross := (List.pairwise_append.mp
      (show List.Pairwise mtimeLt
          (keepLastVictims retain backups ++ keepLastSurvivors retain backups) by
        rw [keepLastVictims, keepLastSurvivors, List.take_append_drop]
        exact hsorted)).2.2
    refine ⟨?_, ?_, ?_, ?_, ?_, ?_⟩
    · simp [enforce_keep_last, h1, h2, keepLastVictims, hlen]
    · simp only [keepLastVictims, List.length_take, hlen]
      omega
    · simp only [keepLastSurvivors, List.length_drop, hlen]
      omega
    · rw [keepLastVictims, keepLastSurvivors, List.take_append_drop]
      exact List.perm_insertionSort mtimeLe backups
    · exact hcross
    · exact hsorted.sublist (List.take_sublist _ _)

theorem keep_last_correct_witness :
    enforce_keep_last 2 demoBackups =
      (keepLastVictims 2 demoBackups).map (·.path) ∧
    enforce_keep_last 2 demoBackups = ["b1"] :=
  ⟨((keep_last_correct 2 demoBackups (by decide)).2.2 (by decide) (by decide)).1,
   by decide⟩

/-! ## Binary descriptor parser (player_parser.py, `ZomboidBinaryParser`)

The parser is a byte buffer plus a cursor.  Multi-byte reads interpret the
slice big-endian, exactly as `struct.unpack(">H"/">I"/">d", ...)`; for
`read_double` the model carries the 64-bit big-endian bit pattern (the bit
pattern of `0.0` is `0`). -/

structure Parser where
  data : List Nat
  position : Nat
deriving DecidableEq, Repr

/-- Big-endian value of the `n` bytes starting at `pos`. -/
def beNat (data : List Nat) (pos : Nat) : Nat → Nat
  | 0 => 0
  | n + 1 => beNat data pos n * 256 + data.getD (pos + n) 0

/-- `read_byte` (player_parser.py lines 23-29). -/
def read_byte (p : Parser) : Nat × Parser :=
  if p.position ≥ p.data.length then (0, p)
  else (p.data.getD p.position 0, { p with position := p.position + 1 })

/-- `read_short` (lines 31-37): big-endian unsigned 16-bit. -/
def read_short (p : Parser) : Nat × Parser :=
  if p.position + 2 > p.data.length then (0, p)
  else (beNat p.data p.position 2, { p with position := p.position + 2 })

/-- `read_int` (lines 39-45): big-endian unsigned 32-bit. -/
def read_int (p : Parser) : Nat × Parser :=
  if p.position + 4 > p.data.length then (0, p)
  else (beNat p.data p.position 4, { p with position := p.position + 4 })

/-- `read_double` (lines 47-53): the returned `Nat` is the 64-bit big-endian
IEEE-754 bit pattern of the decoded double (`0` encodes `0.0`). -/
def read_double (p : Parser) : Nat × Parser :=
  if p.position + 8 > p.data.length then (0, p)
  else (beNat p.data p.position 8, { p with position := p.position + 8 })

/-- Strict UTF-8 decoding of a byte list (continuation byte and range checks
as in RFC 3629, which is what Python's strict `bytes.decode("utf-8")`
implements: overlong encodings, surrogates and values above U+10FFFF are
rejected). Accumulator holds the decoded characters in reverse. -/
def utf8DecodeAux : List Nat → List Char → Option (List Char)
  | [], acc => some acc.reverse
  | b :: rest, acc =>
    if b < 0x80 then
      utf8DecodeAux rest (Char.ofNat b :: acc)
    else if 0xC2 ≤ b ∧ b ≤ 0xDF then
      match rest with
      | c1 :: rest1 =>
        if 0x80 ≤ c1 ∧ c1 ≤ 0xBF then
          utf8DecodeAux rest1 (Char.ofNat ((b - 0xC0) * 0x40 + (c1 - 0x80)) :: acc)
        else none
      | [] => none
    else if b = 0xE0 then
      match rest with
      | c1 :: c2 :: rest2 =>
        if (0xA0 ≤ c1 ∧ c1 ≤ 0xBF) ∧ (0x80 ≤ c2 ∧ c2 ≤ 0xBF) then
          utf8DecodeAux rest2
            (Char.ofNat ((b - 0xE0) * 0x1000 + (c1 - 0x80) * 0x40 + (c2 - 0x80)) :: acc)
        else none
      | _ => none
    else if (0xE1 ≤ b ∧ b ≤ 0xEC) ∨ b = 0xEE ∨ b = 0xEF then
      match rest with
      | c1 :: c2 :: rest2 =>
        if (0x80 ≤ c1 ∧ c1 ≤ 0xBF) ∧ (0x80 ≤ c2 ∧ c2 ≤ 0xBF) then
          utf8DecodeAux rest2
            (Char.ofNat ((b - 0xE0) * 0x1000 + (c1 - 0x80) * 0x40 + (c2 - 0x80)) :: acc)
        else none
      | _ => none
    else if b = 0xED then
      match rest with
      | c1 :: c2 :: rest2 =>
        if (0x80 ≤ c1 ∧ c1 ≤ 0x9F) ∧ (0x80 ≤ c2 ∧ c2 ≤ 0xBF) then
          utf8DecodeAux rest2
            (Char.ofNat ((b - 0xE0) * 0x1000 + (c1 - 0x80) * 0x40 + (c2 - 0x80)) :: acc)
        else none
      | _ => none
    else if b = 0xF0 then
      match rest with
      | c1 :: c2 :: c3 :: rest3 =>
        if (0x90 ≤ c1 ∧ c1 ≤ 0xBF) ∧ (0x80 ≤ c2 ∧ c2 ≤ 0xBF) ∧ (0x80 ≤ c3 ∧ c3 ≤ 0xBF) then
          utf8DecodeAux rest3
            (Char.ofNat ((b - 0xF0) * 0x40000 + (c1 - 0x80) * 0x1000 +
              (c2 - 0x80) * 0x40 + (c3 - 0x80)) :: acc)
        else none
      | _ => none
    else if 0xF1 ≤ b ∧ b ≤ 0xF3 then
      match rest with
      | c1 :: c2 :: c3 :: rest3 =>
        if (0x80 ≤ c1 ∧ c1 ≤ 0xBF) ∧ (0x80 ≤ c2 ∧ c2 ≤ 0xBF) ∧ (0x80 ≤ c3 ∧ c3 ≤ 0xBF) then
          utf8DecodeAux rest3
            (Char.ofNat ((b - 0xF0) * 0x40000 + (c1 - 0x80) * 0x1000 +
              (c2 - 0x80) * 0x40 + (c3 - 0x80)) :: acc)
        else none
      | _ => none
    else if b = 0xF4 then
      match rest with
      | c1 :: c2 :: c3 :: rest3 =>
        if (0x80 ≤ c1 ∧ c1 ≤ 0x8F) ∧ (0x80 ≤ c2 ∧ c2 ≤ 0xBF) ∧ (0x80 ≤ c3 ∧ c3 ≤ 0xBF) then
          utf8DecodeAux rest3
            (Char.ofNat ((b - 0xF0) * 0x40000 + (c1 - 0x80) * 0x1000 +
              (c2 - 0x80) * 0x40 + (c3 - 0x80)) :: acc)
        else none
      | _ => none
    else none

/-- `bytes.decode("utf-8")` with strict errors: `none` models `UnicodeDecodeError`. -/
def utf8Decode (bs : List Nat) : Option String :=
  (utf8DecodeAux bs []).map fun cs => ⟨cs⟩

/-- `bytes.decode("latin-1", errors="ignore")`: latin-1 maps byte `b` to
U+00`b`, so it never fails and the `ignore` handler is moot. -/
def latin1Decode (bs : List Nat) : String :=
  ⟨bs.map Char.ofNat⟩

/-- `read_string` (lines 55-65). -/
def read_string (p : Parser) : String × Parser :=
  let r := read_short p
  if r.1 = 0 ∨ r.2.position + r.1 > r.2.data.length then ("", r.2)
  else
    let p2 : Parser := { r.2 with position := r.2.position + r.1 }
    match utf8Decode ((r.2.data.drop r.2.position).take r.1) with
    | some s => (s, p2)
    | none => (latin1Decode ((r.2.data.drop r.2.position).take r.1), p2)

/-- A typed value recovered from the payload (`read_value_by_type` results):
a double (as its IEEE-754 bit pattern), a string, or a boolean. -/
inductive PyValue where
  | double (bits : Nat)
  | str (s : String)
  | bool (b : Bool)
deriving DecidableEq, Repr

/-- `read_value_by_type` (lines 67-82); `Option.none` models Python `None`. -/
def read_value_by_type (value_type : Nat) (p : Parser) : Option PyValue × Parser :=
  if value_type = 0x00 then (none, p)
  else if value_type = 0x01 then (some (PyValue.double (read_double p).1), (read_double p).2)
  else if value_type = 0x02 then (some (PyValue.str (read_string p).1), (read_string p).2)
  else if value_type = 0x03 then (none, p)
  else if value_type = 0x04 then (some (PyValue.bool true), p)
  else if value_type = 0x05 then (some (PyValue.bool false), p)
  else (none, p)

/-- Contiguous-sublist test (Python's `in` on sequences). -/
def listIsInfixOf (needle : List Char) : List Char → Bool
  | [] => needle.isEmpty
  | a :: t => needle.isPrefixOf (a :: t) || listIsInfixOf needle t

/-- Python `needle in hay` on strings. -/
def strContainsSub (hay needle : String) : Bool :=
  listIsInfixOf needle.data hay.data

/-- Python `str.lower`; `Char.toLower` lowercases exactly the ASCII range,
which agrees with Python on every ASCII string (the interest keywords and
every comparison made by the source are ASCII). -/
def pyLower (s : String) : String :=
  ⟨s.data.map Char.toLower⟩

/-- The `keyword_targets` tuple (player_parser.py lines 111-122). -/
def keyword_targets : List String :=
  ["trait", "profession", "name", "surname", "forename", "hour",
   "zombie", "kill", "strength", "fitness"]

/-- `any(keyword in key.lower() for keyword in keyword_targets)`. -/
def keywordHit (key : String) : Bool :=
  keyword_targets.any fun kw => strContainsSub (pyLower key) kw

/-- Python dict assignment `d[k] = v`: overwrite in place when the key is
present (keeping its insertion position), else append. -/
def dictSet (m : List (String × Option PyValue)) (k : String)
    (v : Option PyValue) : List (String × Option PyValue) :=
  if m.any (fun kv => kv.1 == k) then
    m.map fun kv => if kv.1 == k then (k, v) else kv
  else m ++ [(k, v)]

/-- One iteration of the `parse_character_data` while-loop body
(player_parser.py lines 91-124), started at cursor `pos`: returns the cursor
position at the next loop test together with the recorded key/value pair, if
the iteration recorded one. -/
def scanStep (data : List Nat) (pos : Nat) : Nat × Option (String × Option PyValue) :=
  let r1 := read_byte { data := data, position := pos }
  if r1.1 ≠ 0x02 then (r1.2.position, none)
  else
    let r2 := read_short r1.2
    if ¬ (1 < r2.1 ∧ r2.1 < 200 ∧ r2.2.position + r2.1 ≤ data.length) then
      (r2.2.position, none)
    else
      match utf8Decode ((data.drop r2.2.position).take r2.1) with
      | none => (r2.2.position + r2.1, none)
      | some key =>
        let r4 := read_byte { data := data, position := r2.2.position + r2.1 }
        let r5 := read_value_by_type r4.1 r4.2
        if keywordHit key then (r5.2.position, some (key, r5.1))
        else (r5.2.position, none)

/-- The `while self.position < len(self.data) - 10` loop, fuel-indexed to be
structurally recursive.  The cursor strictly increases at every iteration
(`scanStep_pos_lt` below), so `data.length` fuel always suffices and the
fuel-exhausted arm is unreachable (`parseLoopF_congr` below). -/
def parseLoopF (data : List Nat) :
    Nat → Nat → List (String × Option PyValue) → List (String × Option PyValue)
  | 0, _, acc => acc
  | fuel + 1, pos, acc =>
    if pos < data.length - 10 then
      match scanStep data pos with
      | (pos2, none) => parseLoopF data fuel pos2 acc
      | (pos2, some kv) => parseLoopF data fuel pos2 (dictSet acc kv.1 kv.2)
    else acc

/-- `parse_character_data` (lines 84-126): cursor reset to 0, then the scan
loop. -/
def parse_character_data (data : List Nat) : List (String × Option PyValue) :=
  parseLoopF data data.length 0 []

/-! ### Cursor monotonicity, and fuel sufficiency of `parseLoopF` -/

theorem read_byte_mono (p : Parser) : p.position ≤ (read_byte p).2.position := by
  simp only [read_byte]
  split <;> simp

theorem read_short_mono (p : Parser) : p.position ≤ (read_short p).2.position := by
  simp only [read_short]
  split <;> simp

theorem read_double_mono (p : Parser) : p.position ≤ (read_double p).2.position := by
  simp only [read_double]
  split <;> simp

theorem read_string_mono (p : Parser) : p.position ≤ (read_string p).2.position := by
  simp only [read_string]
  split
  · exact read_short_mono p
  · split
    · exact le_trans (read_short_mono p) (by simp)
    · exact le_trans (read_short_mono p) (by simp)

theorem read_value_by_type_mono (t : Nat) (p : Parser) :
    p.position ≤ (read_value_by_type t p).2.position := by
  simp only [read_value_by_type]
  split_ifs
  · exact le_refl _
  · exact read_double_mono p
  · exact read_string_mono p
  · exact le_refl _
  · exact le_refl _
  · exact le_refl _
  · exact le_refl _

theorem scanStep_pos_lt (data : List Nat) (pos : Nat) (h : pos < data.length) :
    pos < (scanStep data pos).1 := by
  have hb : (read_byte (Parser.mk data pos)).2.position = pos + 1 := by
    simp [read_byte, not_le.mpr h]
  have hs := read_short_mono (read_byte (Parser.mk data pos)).2
  simp only [scanStep]
  split
  · dsimp only
    omega
  · split
    · dsimp only
      omega
    · split
      · dsimp only
        omega
      · next key heq =>
        have hv := read_value_by_type_mono
          (read_byte (Parser.mk data
            ((read_short (read_byte (Parser.mk data pos)).2).2.position +
              (read_short (read_byte (Parser.mk data pos)).2).1))).1
          (read_byte (Parser.mk data
            ((read_short (read_byte (Parser.mk data pos)).2).2.position +
              (read_short (read_byte (Parser.mk data pos)).2).1))).2
        have hb2 := read_byte_mono (Parser.mk data
          ((read_short (read_byte (Parser.mk data pos)).2).2.position +
            (read_short (read_byte (Parser.mk data pos)).2).1))
        simp only at hb2
        split <;> dsimp only <;> omega

/-- Fuel irrelevance: any fuel at least `data.length - pos` computes the same
result, so `parse_character_data`'s `data.length` fuel realises the source's
unbounded while-loop. -/
theorem parseLoopF_congr (data : List Nat) :
    ∀ (f1 f2 pos : Nat) (acc : List (String × Option PyValue)),
      data.length - pos ≤ f1 → data.length - pos ≤ f2 →
      parseLoopF data f1 pos acc = parseLoopF data f2 pos acc := by
  intro f1
  induction f1 with
  | zero =>
    intro f2 pos acc h1 h2
    have hguard : ¬ (pos < data.length - 10) := by omega
    cases f2 with
    | zero => rfl
    | succ g => simp [parseLoopF, hguard]
  | succ f ih =>
    intro f2 pos acc h1 h2
    cases f2 with
    | zero =>
      have hguard : ¬ (pos < data.length - 10) := by omega
      simp [parseLoopF, hguard]
    | succ g =>
      by_cases hguard : pos < data.length - 10
      · have hlt : pos < (scanStep data pos).1 :=
          scanStep_pos_lt data pos (by omega)
        simp only [parseLoopF, if_pos hguard]
        rcases hstep : scanStep data pos with ⟨pos2, kv⟩
        have hpos2 : pos < pos2 := by rw [hstep] at hlt; exact hlt
        cases kv with
        | none => exact ih g pos2 acc (by omega) (by omega)
        | some kv => exact ih g pos2 (dictSet acc kv.1 kv.2) (by omega) (by omega)
      · simp [parseLoopF, hguard]

/-! ### Claims C4, C7, C8 -/

/-- C4: every primitive read whose width would overrun the remaining buffer
returns the zero value of its type without advancing the cursor, and the
typed-value dispatch returns null (along with an unchanged parser) for every
type tag outside `{0x01, 0x02, 0x04, 0x05}`. -/
theorem parser_truncation_safe (p : Parser) :
    (p.data.length < p.position + 1 → read_byte p = (0, p)) ∧
    (p.data.length < p.position + 2 → read_short p = (0, p)) ∧
    (p.data.length < p.position + 4 → read_int p = (0, p)) ∧
    (p.data.length < p.position + 8 → read_double p = (0, p)) ∧
    (∀ t : Nat, t ≠ 0x01 → t ≠ 0x02 → t ≠ 0x04 → t ≠ 0x05 →
      read_value_by_type t p = (none, p)) := by
  refine ⟨?_, ?_, ?_, ?_, ?_⟩
  · intro h
    simp only [read_byte]
    rw [if_pos (by omega)]
  · intro h
    simp only [read_short]
    rw [if_pos (by omega)]
  · intro h
    simp only [read_int]
    rw [if_pos (by omega)]
  · intro h
    simp only [read_double]
    rw [if_pos (by omega)]
  · intro t h1 h2 h4 h5
    simp only [read_value_by_type, h1, h2, h4, h5, if_false]
    split_ifs <;> rfl

theorem parser_truncation_safe_witness :
    read_byte (Parser.mk [7] 1) = (0, Parser.mk [7] 1) ∧
    read_short (Parser.mk [7] 0) = (0, Parser.mk [7] 0) ∧
    read_int (Parser.mk [7] 0) = (0, Parser.mk [7] 0) ∧
    read_double (Parser.mk [7] 0) = (0, Parser.mk [7] 0) ∧
    read_value_by_type 199 (Parser.mk [7] 0) = (none, Parser.mk [7] 0) :=
  ⟨(parser_truncation_safe (Parser.mk [7] 1)).1 (by decide),
   (parser_truncation_safe (Parser.mk [7] 0)).2.1 (by decide),
   (parser_truncation_safe (Parser.mk [7] 0)).2.2.1 (by decide),
   (parser_truncation_safe (Parser.mk [7] 0)).2.2.2.1 (by decide),
   (parser_truncation_safe (Parser.mk [7] 0)).2.2.2.2 199
     (by decide) (by decide) (by decide) (by decide)⟩

/-- Modelled from the claim's wording for C7 ("the scan resumes from the next
byte — the byte immediately after the marker byte"): identical to `scanStep`
except that a rejected length resumes at the byte right after the marker. -/
def scanStepNextByte (data : List Nat) (pos : Nat) :
    Nat × Option (String × Option PyValue) :=
  let r1 := read_byte { data := data, position := pos }
  if r1.1 ≠ 0x02 then (r1.2.position, none)
  else
    let r2 := read_short r1.2
    if ¬ (1 < r2.1 ∧ r2.1 < 200 ∧ r2.2.position + r2.1 ≤ data.length) then
      (r1.2.position, none)
    else
      match utf8Decode ((data.drop r2.2.position).take r2.1) with
      | none => (r2.2.position + r2.1, none)
      | some key =>
        let r4 := read_byte { data := data, position := r2.2.position + r2.1 }
        let r5 := read_value_by_type r4.1 r4.2
        if keywordHit key then (r5.2.position, some (key, r5.1))
        else (r5.2.position, none)

/-- Scan loop over `scanStepNextByte` (same guard and fuel as `parseLoopF`). -/
def parseLoopNextByteF (data : List Nat) :
    Nat → Nat → List (String × Option PyValue) → List (String × Option PyValue)
  | 0, _, acc => acc
  | fuel + 1, pos, acc =>
    if pos < data.length - 10 then
      match scanStepNextByte data pos with
      | (pos2, none) => parseLoopNextByteF data fuel pos2 acc
      | (pos2, some kv) => parseLoopNextByteF data fuel pos2 (dictSet acc kv.1 kv.2)
    else acc

/-- `parse_character_data` as claim C7 words the resynchronisation. -/
def parse_character_data_nextByte (data : List Nat) : List (String × Option PyValue) :=
  parseLoopNextByteF data data.length 0 []

/-- A marker byte at 0 whose 16-bit length (0x0200 = 512) is rejected; the
byte at offset 1 starts a valid `("name", true)` record.  Resuming right
after the marker (claim C7) finds the record; the code resumes after the
length field (offset 3) and finds nothing. -/
def resyncDemoBuffer : List Nat :=
  [0x02, 0x02, 0x00, 0x04, 0x6E, 0x61, 0x6D, 0x65, 0x04,
   0, 0, 0, 0, 0, 0, 0, 0, 0, 0, 0]

/-- C7 counterexample: after the rejected length the code's scan stands at
`marker + 3` (not `marker + 1`), and on `resyncDemoBuffer` the code finds
nothing while the claim's resume-at-next-byte scan finds `("name", true)`. -/
theorem scan_resync_counterexample :
    (scanStep resyncDemoBuffer 0).1 = 3 ∧
    parse_character_data resyncDemoBuffer = [] ∧
    parse_character_data_nextByte resyncDemoBuffer =
      [("name", some (PyValue.bool true))] := by
  decide

/-- C7 amended: a candidate key is accepted only when its 16-bit length is
strictly between 1 and 200 and fits in the remaining buffer; when the length
is rejected the scan resumes from the byte immediately after the two-byte
length field, i.e. three bytes past the marker byte. -/
theorem scan_resync_after_rejected_length (data : List Nat) (pos : Nat)
    (hin : pos + 3 ≤ data.length)
    (hmark : data.getD pos 0 = 0x02)
    (hrej : ¬ (1 < beNat data (pos + 1) 2 ∧ beNat data (pos + 1) 2 < 200 ∧
      (pos + 3) + beNat data (pos + 1) 2 ≤ data.length)) :
    scanStep data pos = (pos + 3, none) := by
  have h1 : ¬ (pos ≥ data.length) := by omega
  have hbyte : read_byte (Parser.mk data pos) =
      (data.getD pos 0, Parser.mk data (pos + 1)) := by
    simp [read_byte, h1]
  have h2 : ¬ (pos + 1 + 2 > data.length) := by omega
  have hshort : read_short (Parser.mk data (pos + 1)) =
      (beNat data (pos + 1) 2, Parser.mk data (pos + 1 + 2)) := by
    simp [read_short, h2]
  have h3 : pos + 1 + 2 = pos + 3 := by omega
  rw [h3] at hshort
  simp [scanStep, hbyte, hshort, hmark, hrej]
  simpa [List.getD] using hmark

theorem scan_resync_after_rejected_length_witness :
    scanStep [2, 255, 255, 0, 0, 0, 0, 0, 0, 0, 0, 0] 0 = (3, none) :=
  scan_resync_after_rejected_length [2, 255, 255, 0, 0, 0, 0, 0, 0, 0, 0, 0] 0
    (by decide) (by decide) (by decide)

/-- Modelled from the claim's wording for C8 ("while at least 10 bytes
remain"): the same loop body, but the guard also admits a cursor with exactly
10 bytes remaining. -/
def parseLoopAtLeastTenF (data : List Nat) :
    Nat → Nat → List (String × Option PyValue) → List (String × Option PyValue)
  | 0, _, acc => acc
  | fuel + 1, pos, acc =>
    if pos + 10 ≤ data.length then
      match scanStep data pos with
      | (pos2, none) => parseLoopAtLeastTenF data fuel pos2 acc
      | (pos2, some kv) => parseLoopAtLeastTenF data fuel pos2 (dictSet acc kv.1 kv.2)
    else acc

/-- `parse_character_data` as claim C8 words the loop guard. -/
def parse_character_data_atLeastTen (data : List Nat) : List (String × Option PyValue) :=
  parseLoopAtLeastTenF data (data.length + 1) 0 []

/-- A 10-byte buffer holding one complete `("name", true)` record at offset 0. -/
def shortDemoBuffer : List Nat :=
  [0x02, 0x00, 0x04, 0x6E, 0x61, 0x6D, 0x65, 0x04, 0, 0]

/-- C8 counterexample: with exactly 10 bytes remaining the code's loop does
not run (guard is `pos < len - 10`), so this valid record is not found even
though the claim's at-least-10 guard would find it. -/
theorem scan_window_counterexample :
    shortDemoBuffer.length = 10 ∧
    parse_character_data shortDemoBuffer = [] ∧
    parse_character_data_atLeastTen shortDemoBuffer =
      [("name", some (PyValue.bool true))] := by
  decide

/-- C8 amended: the loop body runs only while strictly more than 10 bytes
remain ahead of the cursor; every buffer of at most 10 bytes parses to the
empty map, and some 11-byte buffer parses to a non-empty map. -/
theorem scan_window_amended :
    (∀ data : List Nat, data.length ≤ 10 → parse_character_data data = []) ∧
    (∃ data : List Nat, data.length = 11 ∧ parse_character_data data ≠ []) := by
  constructor
  · intro data h
    cases hn : data.length with
    | zero =>
      rw [parse_character_data, hn]
      rfl
    | succ n =>
      rw [parse_character_data, hn]
      have h10 : data.length - 10 = 0 := by omega
      simp [parseLoopF, h10]
  · exact ⟨[0x02, 0x00, 0x04, 0x6E, 0x61, 0x6D, 0x65, 0x04, 0, 0, 0],
      by decide, by decide⟩

/-! ## Backup catalog listing (`ZomboidSaverBackend.get_backups`, C3)

A directory entry as `iterdir` yields it: its final name component, whether
it is a regular file or a directory, and its `st_mtime`. -/

inductive FsKind where
  | file
  | dir
deriving DecidableEq, Repr

structure DirItem where
  name : String
  kind : FsKind
  mtime : Int
deriving DecidableEq, Repr

/-- Index of the last occurrence of `'.'`, CPython's `str.rfind(".")`
(absence modelled as `none` rather than `-1`). -/
def rfindDot (cs : List Char) : Option Nat :=
  (cs.reverse.findIdx? (fun ch => ch == '.')).map (fun j => cs.length - 1 - j)

/-- `pathlib.PurePath.suffix`: the part from the last dot on, provided that
dot is neither the first nor the last character; else empty. -/
def pySuffix (cs : List Char) : List Char :=
  match rfindDot cs with
  | none => []
  | some i => if 0 < i ∧ i < cs.length - 1 then cs.drop i else []

/-- `pathlib.PurePath.stem`: the name with `pySuffix` removed. -/
def pyStem (cs : List Char) : List Char :=
  match rfindDot cs with
  | none => cs
  | some i => if 0 < i ∧ i < cs.length - 1 then cs.take i else cs

/-- Python `str.split(sep)` for a single-character separator: splits at every
occurrence, keeping empty parts. -/
def splitOnChar (c : Char) : List Char → List (List Char)
  | [] => [[]]
  | x :: rest =>
    if x = c then [] :: splitOnChar c rest
    else
      match splitOnChar c rest with
      | [] => [[x]]
      | h :: t => (x :: h) :: t

/-- Python `sep.join(parts)` for a single-character separator. -/
def joinWithChar (c : Char) : List (List Char) → List Char
  | [] => []
  | [p] => p
  | p :: rest => p ++ c :: joinWithChar c rest

/-- `item.stem if item.suffix == ".zip" else item.name` (backend.py line 121). -/
def itemBaseChars (it : DirItem) : List Char :=
  if pySuffix it.name.data = ".zip".data then pyStem it.name.data else it.name.data

/-- Derived logical save name: `"_".join(item_name.split("_")[1:])`. -/
def derivedSaveName (it : DirItem) : String :=
  ⟨joinWithChar '_' ((splitOnChar '_' (itemBaseChars it)).drop 1)⟩

/-- The per-item body of the `get_backups` loop (backend.py lines 119-130):
`true` iff the item is appended to the result.  `filter_save_name = none`
models the `None` default, and the empty string is falsy in Python, so both
disable filtering. -/
def includeItem (filter_save_name : Option String) (it : DirItem) : Bool :=
  (match filter_save_name with
   | none => true
   | some f =>
     if f = "" then true
     else if (itemBaseChars it).contains '_' then derivedSaveName it == f
     else true)
  && ((it.kind == FsKind.file && pySuffix it.name.data == ".zip".data)
      || it.kind == FsKind.dir)

/-- `sort(key=..., reverse=True)` order: descending mtime (stable). -/
def mtimeGe (a b : DirItem) : Prop := b.mtime ≤ a.mtime

instance : DecidableRel mtimeGe := fun a b => Int.decLe b.mtime a.mtime

/-- `ZomboidSaverBackend.get_backups` (backend.py lines 108-133), with the
directory listing of the backup root abstracted as `items` (an absent root is
the empty listing). -/
def get_backups (filter_save_name : Option String) (items : List DirItem) :
    List DirItem :=
  (items.filter (includeItem filter_save_name)).insertionSort mtimeGe

/-- A directory entry with no underscore in its name. -/
def plainDirItem : DirItem := ⟨"plain", FsKind.dir, 0⟩

/-- C3 counterexample: an entry whose base name contains no underscore is
returned by a filtered listing even though its derived logical name does not
equal the filter — the claim says such entries are excluded. -/
theorem catalog_filter_counterexample :
    ("plain".data.contains '_') = false ∧
    get_backups (some "Alpha") [plainDirItem] = [plainDirItem] := by
  decide

/-- C3 amended: under a non-empty filter, an entry is listed iff it is a
`.zip`-named file or a directory, and either its base name contains no
underscore (such entries bypass the name check and match every filter) or its
derived logical name equals the filter exactly (case-sensitively). -/
theorem catalog_filter_amended (f : String) (hf : f ≠ "") (items : List DirItem)
    (it : DirItem) :
    it ∈ get_backups (some f) items ↔
      it ∈ items ∧
      ((it.kind = FsKind.file ∧ pySuffix it.name.data = ".zip".data) ∨
        it.kind = FsKind.dir) ∧
      ((itemBaseChars it).contains '_' = false ∨ derivedSaveName it = f) := by
  rw [get_backups,
    (List.perm_insertionSort mtimeGe (items.filter (includeItem (some f)))).mem_iff,
    List.mem_filter]
  constructor
  · rintro ⟨hmem, hinc⟩
    refine ⟨hmem, ?_, ?_⟩
    · simp only [includeItem, Bool.and_eq_true, Bool.or_eq_true,
        Bool.and_eq_true, beq_iff_eq] at hinc
      rcases hinc.2 with ⟨hk, hs⟩ | hk
      · exact Or.inl ⟨hk, hs⟩
      · exact Or.inr hk
    · simp only [includeItem, if_neg hf, Bool.and_eq_true] at hinc
      by_cases hc : (itemBaseChars it).contains '_'
      · rw [if_pos hc] at hinc
        exact Or.inr (by simpa [beq_iff_eq] using hinc.1)
      · exact Or.inl (by simpa using hc)
  · rintro ⟨hmem, hkind, hname⟩
    refine ⟨hmem, ?_⟩
    simp only [includeItem, if_neg hf, Bool.and_eq_true, Bool.or_eq_true,
      Bool.and_eq_true, beq_iff_eq]
    constructor
    · by_cases hc : (itemBaseChars it).contains '_'
      · rw [if_pos hc]
        rcases hname with hfalse | hd
        · rw [hc] at hfalse
          exact absurd hfalse (by simp)
        · simpa [beq_iff_eq] using hd
      · rw [if_neg hc]
    · rcases hkind with ⟨hk, hs⟩ | hk
      · exact Or.inl ⟨hk, hs⟩
      · exact Or.inr hk

/-- A well-formed zip-named backup artifact for the logical save "Alpha". -/
def alphaZipItem : DirItem := ⟨"100_Alpha.zip", FsKind.file, 5⟩

theorem catalog_filter_amended_witness :
    alphaZipItem ∈ get_backups (some "Alpha") [alphaZipItem, plainDirItem] :=
  (catalog_filter_amended "Alpha" (by decide) [alphaZipItem, plainDirItem]
    alphaZipItem).mpr (by decide)

/-! ## Restore (`ZomboidSaverBackend.restore_backup`, C5 and C9)

The artifact is modelled by its final name component (the dispatch only looks
at the `.zip` suffix of the *name*) and its on-disk state: missing, a regular
file (which may or may not be a valid zip archive), or a directory. -/

inductive ArtifactState where
  | missing
  | file (validZip : Bool)
  | dir
deriving DecidableEq, Repr

structure Artifact where
  name : String
  state : ArtifactState
deriving DecidableEq, Repr

inductive RestoreError where
  | readError
  | fileNotFound
  | notADirectory
deriving DecidableEq, Repr

inductive RestoreAction where
  | extracted
  | copied
deriving DecidableEq, Repr

/-- `shutil.unpack_archive(src, dst)` for a `.zip`-registered name (CPython):
`_unpack_zipfile` first calls `zipfile.is_zipfile(src)`, which returns
`False` for a missing path, a directory, or a file that is not a valid zip
(any `OSError` from opening is swallowed), and then raises
`shutil.ReadError` — only an existing valid zip file is extracted. -/
def unpack_archive (a : Artifact) : Except RestoreError RestoreAction :=
  match a.state with
  | ArtifactState.file true => Except.ok RestoreAction.extracted
  | _ => Except.error RestoreError.readError

/-- `shutil.copytree(src, dst)` (CPython): scanning a missing `src` raises
`FileNotFoundError`; scanning a regular file raises `NotADirectoryError`;
a directory is copied recursively. -/
def copytree (a : Artifact) : Except RestoreError RestoreAction :=
  match a.state with
  | ArtifactState.dir => Except.ok RestoreAction.copied
  | ArtifactState.file _ => Except.error RestoreError.notADirectory
  | ArtifactState.missing => Except.error RestoreError.fileNotFound

structure RestoreOutcome where
  /-- Whether the pre-existing target directory was deleted by this call. -/
  targetRemoved : Bool
  result : Except RestoreError RestoreAction
deriving Repr

/-- `ZomboidSaverBackend.restore_backup` (backend.py lines 153-165): an
existing target is `rmtree`d first, unconditionally; then the dispatch is
solely on the backup path's name suffix. -/
def restore_backup (targetExists : Bool) (a : Artifact) : RestoreOutcome :=
  { targetRemoved := targetExists
    result :=
      if pySuffix a.name.data = ".zip".data then unpack_archive a
      else copytree a }

/-- C5 counterexample: restoring from a missing artifact whose name ends in
`.zip` fails with the archive `ReadError`, not with a not-found error as the
claim states. -/
theorem restore_notfound_counterexample :
    (restore_backup false ⟨"123_Alpha.zip", ArtifactState.missing⟩).result =
      Except.error RestoreError.readError ∧
    RestoreError.readError ≠ RestoreError.fileNotFound :=
  ⟨rfl, by decide⟩

/-- C5 amended: the dispatch is on the artifact's *name*: a `.zip`-named path
is extracted when it is an existing valid zip file and otherwise fails with
the archive read error (including when the path does not exist); any other
path is deep-copied when it is a directory, fails with the not-found error
when missing, and fails with the not-a-directory error when it is a file.
There is no up-front existence or format check. -/
theorem restore_dispatch_amended (t : Bool) (a : Artifact) :
    (pySuffix a.name.data = ".zip".data →
      (restore_backup t a).result =
        (if a.state = ArtifactState.file true then Except.ok RestoreAction.extracted
         else Except.error RestoreError.readError)) ∧
    (pySuffix a.name.data ≠ ".zip".data →
      (restore_backup t a).result =
        (match a.state with
         | ArtifactState.dir => Except.ok RestoreAction.copied
         | ArtifactState.file _ => Except.error RestoreError.notADirectory
         | ArtifactState.missing => Except.error RestoreError.fileNotFound)) := by
  constructor
  · intro h
    simp only [restore_backup, if_pos h, unpack_archive]
    cases a.state with
    | missing => rfl
    | dir => rfl
    | file v => cases v <;> rfl
  · intro h
    simp only [restore_backup, if_neg h, copytree]

theorem restore_dispatch_amended_witness :
    (restore_backup false ⟨"1_A.zip", ArtifactState.file true⟩).result =
      Except.ok RestoreAction.extracted ∧
    (restore_backup true ⟨"1_A", ArtifactState.missing⟩).result =
      Except.error RestoreError.fileNotFound := by
  constructor
  · rw [(restore_dispatch_amended false ⟨"1_A.zip", ArtifactState.file true⟩).1
      (by decide)]
    rfl
  · rw [(restore_dispatch_amended true ⟨"1_A", ArtifactState.missing⟩).2
      (by decide)]

/-- C9: when the target directory exists and the artifact is missing, restore
removes the pre-existing target first and then fails — the prior state is not
preserved on this error. -/
theorem restore_removes_target_despite_missing_artifact (a : Artifact)
    (h : a.state = ArtifactState.missing) :
    (restore_backup true a).targetRemoved = true ∧
    ∃ e, (restore_backup true a).result = Except.error e := by
  refine ⟨rfl, ?_⟩
  by_cases hz : pySuffix a.name.data = ".zip".data
  · exact ⟨RestoreError.readError, by simp [restore_backup, hz, unpack_archive, h]⟩
  · exact ⟨RestoreError.fileNotFound, by simp [restore_backup, hz, copytree, h]⟩

theorem restore_removes_target_despite_missing_artifact_witness :
    (restore_backup true ⟨"9_B", ArtifactState.missing⟩).targetRemoved = true ∧
    ∃ e, (restore_backup true ⟨"9_B", ArtifactState.missing⟩).result =
      Except.error e :=
  restore_removes_target_despite_missing_artifact ⟨"9_B", ArtifactState.missing⟩ rfl

/-! ## Backup creation (`ZomboidSaverBackend.backup_save`, C10)

The destination game-mode directory is modelled by the list of artifact
names already present in it. -/

inductive BackupError where
  | saveNotFound
  | destExists
deriving DecidableEq, Repr

/-- `shutil.make_archive(base, "zip", src)` (CPython): opens the destination
zip with mode `"w"`, truncating and silently replacing any existing file. -/
def make_archive (destNames : List String) (zipName : String) : List String :=
  if destNames.contains zipName then destNames else destNames ++ [zipName]

/-- `ZomboidSaverBackend.backup_save` (backend.py lines 90-106): returns the
artifact path (here: name) and the updated destination listing.
`shutil.copytree` raises `FileExistsError` when the destination exists. -/
def backup_save (saveExists : Bool) (compress : Bool) (timestamp : Nat)
    (save_name : String) (destNames : List String) :
    Except BackupError (String × List String) :=
  if ¬ saveExists then Except.error BackupError.saveNotFound
  else
    if compress then
      Except.ok (toString timestamp ++ "_" ++ save_name ++ ".zip",
        make_archive destNames (toString timestamp ++ "_" ++ save_name ++ ".zip"))
    else if destNames.contains (toString timestamp ++ "_" ++ save_name) then
      Except.error BackupError.destExists
    else
      Except.ok (toString timestamp ++ "_" ++ save_name,
        destNames ++ [toString timestamp ++ "_" ++ save_name])

/-- C10: in compressed mode a name collision is silently overwritten (the
call still succeeds and the listing is unchanged), and compressed-mode backup
of an existing save never fails; the collision failure arises only on the
uncompressed directory-copy path. -/
theorem backup_compress_overwrites (ts : Nat) (save_name : String)
    (destNames : List String) :
    (destNames.contains (toString ts ++ "_" ++ save_name ++ ".zip") = true →
      backup_save true true ts save_name destNames =
        Except.ok (toString ts ++ "_" ++ save_name ++ ".zip", destNames)) ∧
    (∃ v, backup_save true true ts save_name destNames = Except.ok v) ∧
    (destNames.contains (toString ts ++ "_" ++ save_name) = true →
      backup_save true false ts save_name destNames =
        Except.error BackupError.destExists) := by
  refine ⟨?_, ?_, ?_⟩
  · intro h
    have hm : toString ts ++ "_" ++ save_name ++ ".zip" ∈ destNames := by
      simpa using h
    simp [backup_save, make_archive, hm]
  · by_cases h : (toString ts ++ "_" ++ save_name ++ ".zip") ∈ destNames
    · exact ⟨(toString ts ++ "_" ++ save_name ++ ".zip", destNames),
        by simp [backup_save, make_archive, h]⟩
    · exact ⟨(toString ts ++ "_" ++ save_name ++ ".zip",
          destNames ++ [toString ts ++ "_" ++ save_name ++ ".zip"]),
        by simp [backup_save, make_archive, h]⟩
  · intro h
    have hm : toString ts ++ "_" ++ save_name ∈ destNames := by
      simpa using h
    simp [backup_save, hm]

theorem backup_compress_overwrites_witness :
    backup_save true true 1 "A" ["1_A.zip"] = Except.ok ("1_A.zip", ["1_A.zip"]) ∧
    backup_save true false 1 "A" ["1_A"] = Except.error BackupError.destExists :=
  ⟨(backup_compress_overwrites 1 "A" ["1_A.zip"]).1 (by decide),
   (backup_compress_overwrites 1 "A" ["1_A"]).2.2 (by decide)⟩

/-! ## Metadata resolution (`get_player_info`, player_parser.py lines 129-200, C6)

The sqlite store is modelled by the query results the function consumes: the
first `localPlayers` row (name and binary payload) and the first `survivors`
row (hours, zombie kills, both nullable).  A failing `survivors` query inside
the player branch behaves exactly like an absent row (the exception handler
leaves the zero defaults), so both are modelled by `none`; an unreadable
store (outer `except`) is modelled by `dbExists = false`, which also covers
the missing-file early return — both produce `none`.  SQL numerics are
modelled as integers (only null-ness and zero-ness are ever inspected). -/

structure LocalPlayerRow where
  name : String
  payload : List Nat
deriving DecidableEq, Repr

structure SurvivorRow where
  hours : Option Int
  zombiekills : Option Int
deriving DecidableEq, Repr

structure PlayersDb where
  localPlayer : Option LocalPlayerRow
  survivor : Option SurvivorRow
deriving DecidableEq, Repr

structure PlayerInfo where
  character_name : String
  hours_survived : Int
  zombies_killed : Int
  traits : List PyValue
  /-- `none` when the returned dict has no `extra_data` key (fallback path). -/
  extra_data : Option (List (String × Option PyValue))
deriving Repr

/-- `row[i] if row[i] else 0`: both SQL `NULL` and `0` give `0`. -/
def pyNumOr (o : Option Int) : Int :=
  match o with
  | none => 0
  | some v => if v = 0 then 0 else v

/-- Python truthiness of a parsed value (`None`, `False`, `0.0`, `-0.0` and
`""` are falsy; `0x8000000000000000` is the bit pattern of `-0.0`). -/
def pyTruthy (v : Option PyValue) : Bool :=
  match v with
  | none => false
  | some (PyValue.bool b) => b
  | some (PyValue.double bits) => !(bits == 0 || bits == 0x8000000000000000)
  | some (PyValue.str s) => !(s == "")

/-- The traits accumulation loop (lines 158-161): every parsed pair whose key
contains `"trait"` (case-insensitively) and whose value is truthy. -/
def collectTraits (parsed : List (String × Option PyValue)) : List PyValue :=
  parsed.foldl
    (fun ts kv =>
      match kv.2 with
      | some v =>
        if strContainsSub (pyLower kv.1) "trait" && pyTruthy (some v) then ts ++ [v]
        else ts
      | none => ts)
    []

/-- `get_player_info` (player_parser.py lines 129-200). -/
def get_player_info (dbExists : Bool) (db : PlayersDb) : Option PlayerInfo :=
  if ¬ dbExists then none
  else
    match db.localPlayer with
    | some row =>
      some { character_name := row.name
             hours_survived :=
               (match db.survivor with
                | some s => pyNumOr s.hours
                | none => 0)
             zombies_killed :=
               (match db.survivor with
                | some s => pyNumOr s.zombiekills
                | none => 0)
             traits := collectTraits (parse_character_data row.payload)
             extra_data := some (parse_character_data row.payload) }
    | none =>
      match db.survivor with
      | some s =>
        some { character_name := "Unknown"
               hours_survived := pyNumOr s.hours
               zombies_killed := pyNumOr s.zombiekills
               traits := []
               extra_data := none }
      | none => none

theorem pyNumOr_eq_getD (o : Option Int) : pyNumOr o = o.getD 0 := by
  cases o with
  | none => rfl
  | some v =>
    by_cases h : v = 0 <;> simp [pyNumOr, h]

/-- C6: with no player record but an aggregate-stats row, resolution returns
`characterName = "Unknown"`, the aggregate hours and zombie counts with null
fields read as zero, and an empty traits list (and no extra data). -/
theorem metadata_fallback_aggregate (db : PlayersDb) (r : SurvivorRow)
    (h1 : db.localPlayer = none) (h2 : db.survivor = some r) :
    get_player_info true db =
      some { character_name := "Unknown"
             hours_survived := r.hours.getD 0
             zombies_killed := r.zombiekills.getD 0
             traits := []
             extra_data := none } := by
  simp [get_player_info, h1, h2, pyNumOr_eq_getD]

theorem metadata_fallback_aggregate_witness :
    get_player_info true ⟨none, some ⟨none, some 99⟩⟩ =
      some { character_name := "Unknown"
             hours_survived := 0
             zombies_killed := 99
             traits := []
             extra_data := none } := by
  rw [metadata_fallback_aggregate ⟨none, some ⟨none, some 99⟩⟩ ⟨none, some 99⟩ rfl rfl]
  rfl

end ZomboidSaver
